import Mathlib

/-!
Verification of the Context-Gateway telemetry analysis engine
(`docs/quickstart/telemetry-report.py`).

The Python source is shallowly embedded as executable Lean functions:

* JSON log records become structures whose fields carry the defaults the
  Python code supplies through `dict.get` (a field is `Option`-valued only
  when the source reads it with more than one default).
* Python `dict`s used for grouped accumulation become insertion-ordered
  association lists; `d.setdefault(k, v)` followed by in-place mutation
  becomes `updateAssoc`.
* Python `float` arithmetic (prices, ratios, means) is modelled by exact
  rationals `ℚ`; Python `int` becomes `ℕ` (or `ℤ` where a subtraction can
  go negative).
* The one fallible operation (`datetime.fromisoformat` inside
  `analyze_daily`) is modelled with `Except`, so a malformed timestamp
  surfaces as an `Except.error` value instead of a Python exception.
* The module-level global `LIVE_PRICES` (fetched once per run) is passed
  to the analysis functions as an explicit association-list argument.
-/

/-! ## Pricing resolver -/

/-- Static fallback table `FALLBACK_PRICES = {"opus": 15.0, "sonnet": 3.0,
"haiku": 1.0}`; the association list keeps the dict's insertion order,
which is the order the Python `for key, price in FALLBACK_PRICES.items()`
loop scans. -/
def FALLBACK_PRICES : List (String × ℚ) := [("opus", 15), ("sonnet", 3), ("haiku", 1)]

/-- Python's substring test `pat in hay`, on character lists. -/
def substrOf : List Char → List Char → Bool
  | pat, [] => pat.isEmpty
  | pat, c :: rest => pat.isPrefixOf (c :: rest) || substrOf pat rest

/-- `get_price(model)`: exact live-table hit when the live table is
non-empty, else the first fallback entry whose key is a substring of
`model`, else the default `3.0`. -/
def get_price (live : List (String × ℚ)) (model : String) : ℚ :=
  if live ≠ [] ∧ (live.lookup model).isSome then
    (live.lookup model).getD 3
  else
    match FALLBACK_PRICES.find? (fun kv => substrOf kv.1.toList model.toList) with
    | some kv => kv.2
    | none => 3

/-- Pricing behaviour exactly as the specification words it (§4.2): (1) a
non-empty live table with an exact key match wins; (2) otherwise the first
of "opus" → 15.0, "sonnet" → 3.0, "haiku" → 1.0 whose key is a substring of
the model wins; (3) otherwise the fixed default 3.0. Stated separately
from `get_price` so the two can be proved equal. -/
def price_spec (live : List (String × ℚ)) (model : String) : ℚ :=
  match live, live.lookup model with
  | _ :: _, some p => p
  | _, _ =>
    if substrOf "opus".toList model.toList then 15
    else if substrOf "sonnet".toList model.toList then 3
    else if substrOf "haiku".toList model.toList then 1
    else 3

/-! ## Request-log records and the token savings aggregator -/

/-- One request-log (telemetry) record. Numeric fields carry the `0`
default of `rec.get(field, 0)`; `timestamp` carries the `""` default;
`model` stays optional because `analyze_tokens` reads it with two
different defaults (`"unknown"` for grouping, `""` for pricing). -/
structure Entry where
  path : String
  model : Option String
  compression_used : Bool
  original_tokens : Nat
  tokens_saved : Nat
  shadow_refs_created : Nat
  expand_calls_found : Nat
  timestamp : String
  deriving DecidableEq

/-- Grouping key `m.get("model", "unknown")`. -/
def modelKey (m : Entry) : String := m.model.getD "unknown"

/-- Per-model accumulator (`ModelStats` dataclass). -/
structure ModelStats where
  name : String
  count : Nat
  orig_tokens : Nat
  saved_tokens : Nat
  money_saved : ℚ
  deriving DecidableEq

/-- `ModelStats(name=model)` with the dataclass defaults. -/
def ModelStats.start (name : String) : ModelStats := ⟨name, 0, 0, 0, 0⟩

/-- Result of `analyze_tokens` (`TokenStats` dataclass plus the attributes
the function assigns on it). -/
structure TokenStats where
  total_requests : Nat
  compressed_requests : Nat
  passthrough_requests : Nat
  total_orig_tokens : Nat
  total_saved_tokens : Nat
  total_shadows : Nat
  total_expands : Nat
  total_money_saved : ℚ
  models : List (String × ModelStats)
  deriving DecidableEq

/-- All-zero `TokenStats` (dataclass defaults). -/
def TokenStats.start : TokenStats := ⟨0, 0, 0, 0, 0, 0, 0, 0, []⟩

/-- Python `d.setdefault(k, dflt)` followed by mutating the looked-up
value with `f`, on an insertion-ordered association list. -/
def updateAssoc {α : Type} [DecidableEq α] {β : Type} :
    List (α × β) → α → β → (β → β) → List (α × β)
  | [], k, dflt, f => [(k, f dflt)]
  | (k', v) :: rest, k, dflt, f =>
    if k' = k then (k', f v) :: rest else (k', v) :: updateAssoc rest k dflt f

/-- The three `+=` statements the per-model loop performs on one record. -/
def bumpModel (m : Entry) (s : ModelStats) : ModelStats :=
  { s with count := s.count + 1,
           orig_tokens := s.orig_tokens + m.original_tokens,
           saved_tokens := s.saved_tokens + m.tokens_saved }

/-- The `models` dict after the grouping loop of `analyze_tokens`
(before the pricing pass). -/
def tokenModels (msgs : List Entry) : List (String × ModelStats) :=
  msgs.foldl (fun ms m => updateAssoc ms (modelKey m) (ModelStats.start (modelKey m)) (bumpModel m)) []

/-- `[e for e in entries if e.get("path") == "/v1/messages"]`. -/
def msgsOf (entries : List Entry) : List Entry :=
  entries.filter (fun e => e.path = "/v1/messages")

/-- `analyze_tokens`: absent when no record matches `/v1/messages`;
otherwise totals over the matching records, money per compressed record at
that record's own model price, and a per-model breakdown priced once on
each model's accumulated total. -/
def analyze_tokens (live : List (String × ℚ)) (entries : List Entry) : Option TokenStats :=
  let msgs := msgsOf entries
  if msgs = [] then none
  else
    let compressed := msgs.filter (fun m => m.compression_used)
    let passthrough := msgs.filter (fun m => !m.compression_used)
    some {
      total_requests := msgs.length,
      compressed_requests := compressed.length,
      passthrough_requests := passthrough.length,
      total_orig_tokens := (msgs.map (fun m => m.original_tokens)).sum,
      total_saved_tokens := (compressed.map (fun m => m.tokens_saved)).sum,
      total_shadows := (compressed.map (fun m => m.shadow_refs_created)).sum,
      total_expands := (compressed.map (fun m => m.expand_calls_found)).sum,
      total_money_saved := (compressed.map (fun m =>
        (m.tokens_saved : ℚ) / 1000000 * get_price live (m.model.getD ""))).sum,
      models := (tokenModels msgs).map (fun p =>
        (p.1, { p.2 with
                money_saved := (p.2.saved_tokens : ℚ) / 1000000 * get_price live p.2.name })) }

/-! ## Compression-log records and the size aggregator -/

/-- One compression-log record. `tool_name` carries the `"unknown"`
default as an option; `compressed_bytes` stays optional because its
default is the record's own `original_bytes`. -/
structure CompRec where
  tool_name : Option String
  status : String
  original_bytes : Nat
  compressed_bytes : Option Nat
  min_threshold : Nat
  deriving DecidableEq

/-- `rec.get("tool_name", "unknown")`. -/
def toolKey (rec : CompRec) : String := rec.tool_name.getD "unknown"

/-- Per-tool accumulator (`ToolStats` dataclass). `saved_bytes` is `ℤ`
because `orig - comp` can be negative when compression grew the output. -/
structure ToolStats where
  name : String
  total : Nat
  compressed : Nat
  orig_bytes : Nat
  saved_bytes : ℤ
  deriving DecidableEq

/-- `ToolStats(name=tool)` with the dataclass defaults. -/
def ToolStats.start (name : String) : ToolStats := ⟨name, 0, 0, 0, 0⟩

/-- One `(threshold, calls, ratio, saved, wasted, roi)` row of the sweep. -/
structure ThresholdResult where
  threshold : Nat
  calls : Nat
  ratio : ℚ
  saved : ℤ
  wasted : Nat
  roi : ℚ
  deriving DecidableEq

/-- Result of `analyze_sizes` (`SizeStats` dataclass). -/
structure SizeStats where
  all_sizes : List Nat
  compressed_sizes : List Nat
  passthrough_sizes : List Nat
  ratios : List ℚ
  tools : List (String × ToolStats)
  status_counts : List (String × Nat)
  current_threshold : Nat
  thresholds : List ThresholdResult
  sweet_spot : Nat
  compression_cost : ℚ
  deriving DecidableEq

/-- `SizeStats()` with the dataclass defaults. -/
def SizeStats.start : SizeStats := ⟨[], [], [], [], [], [], 0, [], 0, 0⟩

/-- Body of the first `for rec in entries` loop of `analyze_sizes`:
skip zero-byte records, append the size, bump the status counter and the
per-tool stats, and record size and ratio on the compressed/passthrough
side. -/
def sizeLoopStep (st : SizeStats) (rec : CompRec) : SizeStats :=
  let orig := rec.original_bytes
  if orig = 0 then st
  else
    let status := rec.status
    let comp := rec.compressed_bytes.getD orig
    let tupd : ToolStats → ToolStats := fun t =>
      let t := { t with total := t.total + 1, orig_bytes := t.orig_bytes + orig }
      if status = "compressed" then
        { t with compressed := t.compressed + 1,
                 saved_bytes := t.saved_bytes + ((orig : ℤ) - (comp : ℤ)) }
      else t
    { st with
      all_sizes := st.all_sizes ++ [orig],
      status_counts := updateAssoc st.status_counts status 0 (fun n => n + 1),
      tools := updateAssoc st.tools (toolKey rec) (ToolStats.start (toolKey rec)) tupd,
      compressed_sizes :=
        if status = "compressed" then st.compressed_sizes ++ [orig] else st.compressed_sizes,
      passthrough_sizes :=
        if status = "compressed" then st.passthrough_sizes else st.passthrough_sizes ++ [orig],
      ratios :=
        if status = "compressed" then
          if 0 < orig then st.ratios ++ [(comp : ℚ) / (orig : ℚ)] else st.ratios
        else st.ratios }

/-- The reversed scan for the most recent non-zero `min_threshold`. -/
def currentThreshold (entries : List CompRec) : Nat :=
  match entries.reverse.find? (fun rec => decide (0 < rec.min_threshold)) with
  | some rec => rec.min_threshold
  | none => 0

/-- One element of `compressed_data`: a compressed sample reduced to
`{"orig": ..., "comp": ..., "ratio": comp / orig}`. -/
structure SampleC where
  orig : Nat
  comp : Nat
  ratio : ℚ
  deriving DecidableEq

/-- The `compressed_data` list: records with `status == "compressed"` and
non-zero `original_bytes`, reduced to `(orig, comp, ratio)`. -/
def compressedData (entries : List CompRec) : List SampleC :=
  entries.filterMap (fun rec =>
    let orig := rec.original_bytes
    if orig = 0 ∨ rec.status ≠ "compressed" then none
    else
      let comp := rec.compressed_bytes.getD orig
      some ⟨orig, comp, (comp : ℚ) / (orig : ℚ)⟩)

/-- The fixed ordered candidate list of the sweep. -/
def THRESHOLD_CANDIDATES : List Nat := [256, 512, 768, 1024, 1536, 2048, 3072, 4096]

/-- The hard-coded cheap-model identifier priced for the ROI estimate. -/
def CHEAP_MODEL : String := "claude-haiku-4-5-20251001"

/-- `eligible = [c for c in compressed_data if c["orig"] >= threshold]`. -/
def eligibleAt (cd : List SampleC) (t : Nat) : List SampleC :=
  cd.filter (fun c => decide (t ≤ c.orig))

/-- `wasted = sum(1 for c in eligible if c["ratio"] >= 0.9)`. -/
def wastedAt (cd : List SampleC) (t : Nat) : Nat :=
  ((eligibleAt cd t).filter (fun c => decide ((9 : ℚ) / 10 ≤ c.ratio))).length

/-- `saved = sum(c["orig"] - c["comp"] for c in eligible if c["ratio"] < 0.9)`. -/
def savedAt (cd : List SampleC) (t : Nat) : ℤ :=
  (((eligibleAt cd t).filter (fun c => decide (c.ratio < (9 : ℚ) / 10))).map
    (fun c => (c.orig : ℤ) - (c.comp : ℤ))).sum

/-- `api_input = sum(c["orig"] for c in eligible)`. -/
def apiInputAt (cd : List SampleC) (t : Nat) : Nat :=
  ((eligibleAt cd t).map (fun c => c.orig)).sum

/-- The `ThresholdResult` recorded for one candidate threshold with a
non-empty eligible set: eligible count, mean ratio (`statistics.mean`),
saved bytes, wasted count, and `roi = main_savings / api_cost` guarded by
`api_cost > 0`. -/
def mkThresholdResult (live : List (String × ℚ)) (cd : List SampleC) (t : Nat) :
    ThresholdResult :=
  let eligible := eligibleAt cd t
  let api_cost := ((apiInputAt cd t : ℚ) / 4) / 1000000 * get_price live CHEAP_MODEL
  let main_savings := ((savedAt cd t : ℚ) / 4) / 1000000 * 15
  { threshold := t,
    calls := eligible.length,
    ratio := (eligible.map (fun c => c.ratio)).sum / (eligible.length : ℚ),
    saved := savedAt cd t,
    wasted := wastedAt cd t,
    roi := if 0 < api_cost then main_savings / api_cost else 0 }

/-- Body of the `for threshold in [...]` sweep loop: skip a threshold
whose eligible set is empty, otherwise append its row; the second
component remembers `api_input` whenever the threshold equals the
currently configured one. -/
def sweepStep (live : List (String × ℚ)) (cd : List SampleC) (current : Nat)
    (acc : List ThresholdResult × Nat) (t : Nat) : List ThresholdResult × Nat :=
  if eligibleAt cd t = [] then acc
  else (acc.1 ++ [mkThresholdResult live cd t],
        if t = current then apiInputAt cd t else acc.2)

/-- The whole sweep: rows in candidate order plus the remembered
`total_comp_input`. -/
def sweepResults (live : List (String × ℚ)) (cd : List SampleC) (current : Nat) :
    List ThresholdResult × Nat :=
  THRESHOLD_CANDIDATES.foldl (sweepStep live cd current) ([], 0)

/-- The sweet-spot scan: first recorded row with `wasted == 0`, else 0. -/
def sweetOf (ths : List ThresholdResult) : Nat :=
  match ths.find? (fun r => decide (r.wasted = 0)) with
  | some r => r.threshold
  | none => 0

/-- `analyze_sizes`: absent on an empty input or when every record has
zero `original_bytes`; otherwise the accumulation loop, the
current-threshold scan, and — only when at least 10 compressed samples
exist — the threshold sweep, sweet-spot scan and compression-cost
estimate. -/
def analyze_sizes (live : List (String × ℚ)) (entries : List CompRec) : Option SizeStats :=
  if entries = [] then none
  else
    let st := entries.foldl sizeLoopStep SizeStats.start
    if st.all_sizes = [] then none
    else
      let st := { st with current_threshold := currentThreshold entries }
      let cd := compressedData entries
      if 10 ≤ cd.length then
        let sweep := sweepResults live cd st.current_threshold
        let cost :=
          if sweep.2 ≠ 0 then ((sweep.2 : ℚ) / 4) / 1000000 * get_price live CHEAP_MODEL
          else 0
        some { st with thresholds := sweep.1, sweet_spot := sweetOf sweep.1,
                       compression_cost := cost }
      else some st

/-! ## Daily usage aggregator -/

/-- Value of an ASCII digit character, `none` for a non-digit. -/
def digitVal (c : Char) : Option Nat :=
  if 48 ≤ c.toNat ∧ c.toNat ≤ 57 then some (c.toNat - 48) else none

/-- Two-digit decimal number, `none` unless both characters are digits. -/
def digits2 (a b : Char) : Option Nat := do
  let x ← digitVal a
  let y ← digitVal b
  pure (10 * x + y)

/-- Gregorian leap-year test, as `datetime` validates dates. -/
def isLeapYear (y : Nat) : Bool :=
  (y % 4 == 0 && y % 100 != 0) || y % 400 == 0

/-- Number of days in a month, as `datetime` validates dates. -/
def daysInMonth (y m : Nat) : Nat :=
  if m = 2 then (if isLeapYear y then 29 else 28)
  else if m = 4 ∨ m = 6 ∨ m = 9 ∨ m = 11 then 30
  else 31

/-- Two digit characters forming a number below `bound`. -/
def twoDigitBelow (a b : Char) (bound : Nat) : Bool :=
  match digits2 a b with
  | some v => decide (v < bound)
  | none => false

/-- Valid `HH`, `HH:MM` or `HH:MM:SS` time-of-day string (the only time
shapes that fit in the 19-character prefix `ts[:19]`). -/
def validHMS : List Char → Bool
  | [h1, h2] => twoDigitBelow h1 h2 24
  | [h1, h2, c1, m1, m2] =>
    c1 == ':' && twoDigitBelow h1 h2 24 && twoDigitBelow m1 m2 60
  | [h1, h2, c1, m1, m2, c2, s1, s2] =>
    c1 == ':' && c2 == ':' && twoDigitBelow h1 h2 24 &&
      twoDigitBelow m1 m2 60 && twoDigitBelow s1 s2 60
  | _ => false

/-- After the 10 date characters: either nothing, or one separator
character (any character, as `datetime.fromisoformat` accepts) followed by
a valid time of day. -/
def validTimePart : List Char → Bool
  | [] => true
  | _sep :: rest => validHMS rest

/-- Model of `datetime.fromisoformat(s).date()` for strings of at most 19
characters in the extended format `YYYY-MM-DD[*HH[:MM[:SS]]]`: returns the
calendar date `(year, month, day)` when the string parses, `none` when the
Python call would raise `ValueError`. -/
def parseIsoDate (cs : List Char) : Option (Nat × Nat × Nat) :=
  match cs with
  | y1 :: y2 :: y3 :: y4 :: s1 :: mo1 :: mo2 :: s2 :: d1 :: d2 :: rest =>
    if s1 == '-' && s2 == '-' then
      match digits2 y1 y2, digits2 y3 y4, digits2 mo1 mo2, digits2 d1 d2 with
      | some yh, some yl, some mo, some dd =>
        let y := 100 * yh + yl
        if 1 ≤ y ∧ 1 ≤ mo ∧ mo ≤ 12 ∧ 1 ≤ dd ∧ dd ≤ daysInMonth y mo ∧
            validTimePart rest then
          some (y, mo, dd)
        else none
      | _, _, _, _ => none
    else none
  | _ => none

/-- Result of `analyze_daily` (`DailyStats` dataclass; the constructor
call leaves the trailing total fields at their defaults). -/
structure DailyStats where
  active_days : Nat
  avg_tokens_per_day : ℚ
  min_tokens_per_day : Nat
  max_tokens_per_day : Nat
  median_tokens_per_day : ℚ
  daily_values : List Nat
  total_saved_tokens : Nat
  total_money_saved : ℚ
  total_shadows : Nat
  total_expands : Nat
  models : List (String × ModelStats)
  deriving DecidableEq

/-- `DailyStats()` with the dataclass defaults. -/
def DailyStats.start : DailyStats := ⟨0, 0, 0, 0, 0, [], 0, 0, 0, 0, []⟩

/-- The grouping loop of `analyze_daily` over an accumulator: skip empty
timestamps, parse the first 19 characters, and add `original_tokens` to
that date's bucket (`defaultdict(int)` semantics); a timestamp the parser
rejects aborts the whole call, as the uncaught `ValueError` does. -/
def dailyTokensAux : List Entry → List ((Nat × Nat × Nat) × Nat) →
    Except String (List ((Nat × Nat × Nat) × Nat))
  | [], acc => Except.ok acc
  | m :: ms, acc =>
    if m.timestamp = "" then dailyTokensAux ms acc
    else
      match parseIsoDate (m.timestamp.toList.take 19) with
      | none => Except.error "Invalid isoformat string"
      | some d => dailyTokensAux ms (updateAssoc acc d 0 (fun n => n + m.original_tokens))

/-- `[tokens for tokens in daily_tokens.values() if tokens > 0]`. -/
def activeValuesOf (daily : List ((Nat × Nat × Nat) × Nat)) : List Nat :=
  (daily.map (fun p => p.2)).filter (fun n => decide (0 < n))

/-- `statistics.mean` on a list of integers, as an exact rational. -/
def meanQ (l : List Nat) : ℚ := ((l.map (fun n => (n : ℚ))).sum) / (l.length : ℚ)

/-- Python `sorted` on a list of integers (ascending). -/
def sortedNat (l : List Nat) : List Nat := List.insertionSort (· ≤ ·) l

/-- `statistics.median`: middle element of the sorted list, or the mean of
the two middle elements for an even length. (Only ever applied to
non-empty lists here, matching the call site.) -/
def medianQ (l : List Nat) : ℚ :=
  let s := sortedNat l
  let n := s.length
  if n % 2 = 1 then ((s.getD (n / 2) 0 : Nat) : ℚ)
  else (((s.getD (n / 2 - 1) 0 : Nat) : ℚ) + ((s.getD (n / 2) 0 : Nat) : ℚ)) / 2

/-- `min` of a non-empty list of integers (0 is never reached: the call
site checks non-emptiness first, as Python's `min` requires). -/
def listMinD : List Nat → Nat
  | [] => 0
  | x :: xs => xs.foldl Nat.min x

/-- `max` of a non-empty list of integers, same proviso as `listMinD`. -/
def listMaxD : List Nat → Nat
  | [] => 0
  | x :: xs => xs.foldl Nat.max x

/-- `analyze_daily`: absent when no record matches `/v1/messages` or when
no date has a positive token total; an error when some non-empty timestamp
fails to parse; otherwise the statistics over the active days only. -/
def analyze_daily (entries : List Entry) : Except String (Option DailyStats) :=
  let msgs := msgsOf entries
  if msgs = [] then Except.ok none
  else
    match dailyTokensAux msgs [] with
    | Except.error e => Except.error e
    | Except.ok daily =>
      let active_values := activeValuesOf daily
      if active_values = [] then Except.ok none
      else
        Except.ok (some {
          active_days := active_values.length,
          avg_tokens_per_day := meanQ active_values,
          min_tokens_per_day := listMinD active_values,
          max_tokens_per_day := listMaxD active_values,
          median_tokens_per_day := medianQ active_values,
          daily_values := sortedNat active_values,
          total_saved_tokens := 0, total_money_saved := 0,
          total_shadows := 0, total_expands := 0, models := [] })

/-! ## C5: pricing resolution order -/

/-- C5: for every model string, `get_price` returns the live table's value
when the live table is non-empty and contains the model as an exact key;
otherwise the first static-table price ("opus" → 15.0, then "sonnet" →
3.0, then "haiku" → 1.0) whose key is a substring of the model string;
otherwise the fixed default 3.0 — i.e. it coincides with `price_spec`,
the literal transcription of the specification's resolution order. -/
theorem get_price_eq_price_spec (live : List (String × ℚ)) (model : String) :
    get_price live model = price_spec live model := by
  have hfall :
      (match FALLBACK_PRICES.find? (fun kv => substrOf kv.1.toList model.toList) with
        | some kv => kv.2
        | none => (3 : ℚ)) =
      (if substrOf "opus".toList model.toList then (15 : ℚ)
       else if substrOf "sonnet".toList model.toList then 3
       else if substrOf "haiku".toList model.toList then 1
       else 3) := by
    by_cases h1 : substrOf "opus".toList model.toList <;>
      by_cases h2 : substrOf "sonnet".toList model.toList <;>
        by_cases h3 : substrOf "haiku".toList model.toList <;>
          simp_all [FALLBACK_PRICES, List.find?]
  unfold get_price price_spec
  cases live with
  | nil => simpa using hfall
  | cons hd tl =>
    cases hlk : (hd :: tl).lookup model with
    | none => simpa [hlk] using hfall
    | some p => simp [hlk]

/-! ## C8: analyze_tokens absent iff no matching record -/

/-- C8: `analyze_tokens` returns the absent value `none` exactly when no
input record has `path == "/v1/messages"`; whenever at least one record
matches, a `TokenStats` value is returned. -/
theorem analyze_tokens_none_iff (live : List (String × ℚ)) (entries : List Entry) :
    analyze_tokens live entries = none ↔ ¬ ∃ e ∈ entries, e.path = "/v1/messages" := by
  have hiff : msgsOf entries = [] ↔ ¬ ∃ e ∈ entries, e.path = "/v1/messages" := by
    simp [msgsOf, List.filter_eq_nil_iff]
  rw [← hiff]
  unfold analyze_tokens
  by_cases h : msgsOf entries = [] <;> simp [h]

/-! ## C9: analyze_daily is not total -/

/-- A `/v1/messages` record whose non-empty timestamp is not a valid
ISO-8601 date-time. -/
def c9Entry : Entry :=
  { path := "/v1/messages", model := none, compression_used := false, original_tokens := 5,
    tokens_saved := 0, shadow_refs_created := 0, expand_calls_found := 0,
    timestamp := "not-a-timestamp" }

/-- C9: there is an input on which `analyze_daily` fails to return a
result: a matching record with a non-empty, malformed timestamp makes the
date conversion raise (modelled as `Except.error`), so the daily
aggregator is not total over arbitrary record sequences. -/
theorem analyze_daily_error_on_malformed_timestamp :
    analyze_daily [c9Entry] = Except.error "Invalid isoformat string" ∧
    c9Entry.path = "/v1/messages" ∧ c9Entry.timestamp ≠ "" :=
  ⟨rfl, rfl, by decide⟩

/-! ## C1 machinery: the per-model grouping fold -/

theorem lookup_updateAssoc {β : Type} (l : List (String × β)) (k : String) (dflt : β)
    (f : β → β) (k' : String) :
    (updateAssoc l k dflt f).lookup k' =
      if k' = k then some (f ((l.lookup k).getD dflt)) else l.lookup k' := by
  induction l with
  | nil =>
    by_cases h : k' = k
    · subst h; simp [updateAssoc, List.lookup_cons]
    · have hb : (k' == k) = false := beq_eq_false_iff_ne.mpr h
      simp [updateAssoc, List.lookup_cons, hb, h]
  | cons hd tl ih =>
    obtain ⟨k0, v0⟩ := hd
    by_cases h0 : k0 = k
    · subst h0
      by_cases h : k' = k0
      · subst h; simp [updateAssoc, List.lookup_cons]
      · have hb : (k' == k0) = false := beq_eq_false_iff_ne.mpr h
        simp [updateAssoc, List.lookup_cons, hb, h]
    · by_cases h : k' = k0
      · subst h
        have hne : ¬ k' = k := fun e => h0 (e ▸ rfl)
        have hb : (k' == k') = true := beq_self_eq_true k'
        simp [updateAssoc, List.lookup_cons, h0, hne]
      · have hb : (k' == k0) = false := beq_eq_false_iff_ne.mpr h
        have hb0 : (k == k0) = false := beq_eq_false_iff_ne.mpr (fun e => h0 e.symm)
        simp [updateAssoc, List.lookup_cons, h0, hb, hb0, ih]

/-- Folding `bumpModel` over a list of records, the abstract form of the
grouping loop restricted to one dict entry. -/
def bumpFold (l : List Entry) (s : ModelStats) : ModelStats :=
  l.foldl (fun s m => bumpModel m s) s

theorem bumpFold_fields (l : List Entry) (s : ModelStats) :
    bumpFold l s = ⟨s.name, s.count + l.length,
      s.orig_tokens + (l.map (fun m => m.original_tokens)).sum,
      s.saved_tokens + (l.map (fun m => m.tokens_saved)).sum,
      s.money_saved⟩ := by
  induction l generalizing s with
  | nil => simp [bumpFold]
  | cons m ms ih =>
    have hstep : bumpFold (m :: ms) s = bumpFold ms (bumpModel m s) := rfl
    rw [hstep, ih (bumpModel m s)]
    simp only [bumpModel, List.map_cons, List.sum_cons, List.length_cons, ModelStats.mk.injEq]
    refine ⟨trivial, by omega, by omega, by omega, trivial⟩

theorem lookup_tokenModels_go (msgs : List Entry) (acc : List (String × ModelStats))
    (k : String) :
    (msgs.foldl
      (fun ms m => updateAssoc ms (modelKey m) (ModelStats.start (modelKey m)) (bumpModel m))
      acc).lookup k =
      match acc.lookup k with
      | some s => some (bumpFold (msgs.filter (fun m => decide (modelKey m = k))) s)
      | none =>
        if msgs.filter (fun m => decide (modelKey m = k)) = [] then none
        else some (bumpFold (msgs.filter (fun m => decide (modelKey m = k)))
          (ModelStats.start k)) := by
  induction msgs generalizing acc with
  | nil => cases hacc : acc.lookup k <;> simp [bumpFold, hacc]
  | cons m ms ih =>
    rw [List.foldl_cons, ih, lookup_updateAssoc]
    by_cases hm : modelKey m = k
    · subst hm
      rw [if_pos rfl]
      have hfil : (m :: ms).filter (fun m' => decide (modelKey m' = modelKey m)) =
          m :: ms.filter (fun m' => decide (modelKey m' = modelKey m)) := by
        simp [List.filter_cons]
      rw [hfil]
      cases hacc : acc.lookup (modelKey m) with
      | none =>
        simp only [hacc, Option.getD_none]
        have hcons : (m :: ms.filter (fun m' => decide (modelKey m' = modelKey m))) ≠ [] :=
          List.cons_ne_nil _ _
        rw [if_neg hcons]
        rfl
      | some s =>
        simp only [hacc, Option.getD_some]
        rfl
    · rw [if_neg (fun e => hm e.symm)]
      have hfil : (m :: ms).filter (fun m' => decide (modelKey m' = k)) =
          ms.filter (fun m' => decide (modelKey m' = k)) := by
        simp [List.filter_cons, hm]
      rw [hfil]

theorem lookup_tokenModels (msgs : List Entry) (k : String) :
    (tokenModels msgs).lookup k =
      if msgs.filter (fun m => decide (modelKey m = k)) = [] then none
      else some (bumpFold (msgs.filter (fun m => decide (modelKey m = k)))
        (ModelStats.start k)) := by
  unfold tokenModels
  rw [lookup_tokenModels_go]
  simp

theorem lookup_map_priced (live : List (String × ℚ)) (l : List (String × ModelStats))
    (k : String) :
    (l.map (fun p => (p.1, { p.2 with
        money_saved := (p.2.saved_tokens : ℚ) / 1000000 * get_price live p.2.name }))).lookup k
      = (l.lookup k).map (fun v => { v with
          money_saved := (v.saved_tokens : ℚ) / 1000000 * get_price live v.name }) := by
  induction l with
  | nil => simp
  | cons hd tl ih =>
    obtain ⟨k0, v0⟩ := hd
    by_cases h : k = k0
    · subst h
      simp [List.lookup_cons]
    · have hb : (k == k0) = false := beq_eq_false_iff_ne.mpr h
      simp [List.lookup_cons, hb, ih]

/-- Total `tokens_saved` accumulated for grouping key `k` over all the
`/v1/messages` records (compressed or passthrough alike). -/
def modelSavedTokens (entries : List Entry) (k : String) : Nat :=
  (((msgsOf entries).filter (fun m => decide (modelKey m = k))).map
    (fun m => m.tokens_saved)).sum

theorem analyze_tokens_money_aux (live : List (String × ℚ)) (entries : List Entry)
    (st : TokenStats) (k : String) (s : ModelStats)
    (h : analyze_tokens live entries = some st) (hk : st.models.lookup k = some s) :
    s.money_saved = (modelSavedTokens entries k : ℚ) / 1000000 * get_price live k := by
  simp only [analyze_tokens] at h
  by_cases hm : msgsOf entries = []
  · simp [hm] at h
  · rw [if_neg hm] at h
    have h2 := Option.some.inj h
    subst h2
    simp only at hk
    rw [lookup_map_priced, lookup_tokenModels] at hk
    by_cases hfil : (msgsOf entries).filter (fun m => decide (modelKey m = k)) = []
    · rw [if_pos hfil] at hk
      simp at hk
    · rw [if_neg hfil] at hk
      simp only [Option.map_some'] at hk
      rw [← Option.some.inj hk, bumpFold_fields]
      simp [modelSavedTokens, ModelStats.start]

theorem modelSavedTokens_perm (entries entries' : List Entry) (k : String)
    (hp : entries.Perm entries') :
    modelSavedTokens entries k = modelSavedTokens entries' k := by
  unfold modelSavedTokens msgsOf
  exact List.Perm.sum_eq (((hp.filter _).filter _).map _)

/-! ## C1: per-model money_saved -/

/-- C1 (amended): the per-model breakdown of `analyze_tokens` assigns each
model key a `money_saved` equal to the sum of `tokens_saved` over **all**
of that model's `/v1/messages` records — compressed and passthrough alike,
not only the compressed ones — divided by 1e6 and multiplied by the
model's price; the price is applied once to the model's total, and the
value is independent of the order in which the records are iterated. -/
theorem analyze_tokens_model_money (live : List (String × ℚ)) (entries : List Entry)
    (st : TokenStats) (k : String) (s : ModelStats)
    (h : analyze_tokens live entries = some st) (hk : st.models.lookup k = some s) :
    s.money_saved = (modelSavedTokens entries k : ℚ) / 1000000 * get_price live k ∧
    ∀ entries' st' s', entries.Perm entries' →
      analyze_tokens live entries' = some st' → st'.models.lookup k = some s' →
      s'.money_saved = s.money_saved := by
  refine ⟨analyze_tokens_money_aux live entries st k s h hk, ?_⟩
  intro entries' st' s' hp h' hk'
  rw [analyze_tokens_money_aux live entries' st' k s' h' hk',
    analyze_tokens_money_aux live entries st k s h hk,
    modelSavedTokens_perm entries entries' k hp]

/-- A matching passthrough record that nevertheless reports saved tokens:
the data-model invariant "`tokens_saved = 0` when not compressed" is
explicitly not enforced, and the grouping loop of `analyze_tokens` runs
over all matching records, not only the compressed ones. -/
def c1CexEntry : Entry :=
  { path := "/v1/messages", model := some "m", compression_used := false,
    original_tokens := 200, tokens_saved := 100, shadow_refs_created := 0,
    expand_calls_found := 0, timestamp := "" }

/-- The `TokenStats` the code computes on `[c1CexEntry]`. -/
def c1CexStats : TokenStats := (analyze_tokens [] [c1CexEntry]).getD TokenStats.start

/-- The per-model entry for key "m" in `c1CexStats`. -/
def c1CexModel : ModelStats := (c1CexStats.models.lookup "m").getD (ModelStats.start "m")

/-- The quantity the claim's formula prices: total `tokens_saved` over the
`/v1/messages` records of key `k` that are marked `compression_used` —
the *compressed* records only. (Transcribed from the claim's wording, to
be compared with what the code computes.) -/
def modelCompressedSavedTokens (entries : List Entry) (k : String) : Nat :=
  ((((msgsOf entries).filter (fun m => m.compression_used)).filter
    (fun m => decide (modelKey m = k))).map (fun m => m.tokens_saved)).sum

/-- C1 (counterexample to the claim as stated): on a single passthrough
record with `tokens_saved = 100`, the sum of `tokens_saved` over the
model's *compressed* records is 0, so the claimed formula prices to 0 —
but the code assigns the model `money_saved = 100/1e6 · 3 ≠ 0`, because
the grouping loop accumulates `tokens_saved` over all matching records. -/
theorem c1_model_money_counterexample :
    analyze_tokens [] [c1CexEntry] = some c1CexStats ∧
    c1CexStats.models.lookup "m" = some c1CexModel ∧
    modelCompressedSavedTokens [c1CexEntry] "m" = 0 ∧
    c1CexModel.money_saved ≠
      (modelCompressedSavedTokens [c1CexEntry] "m" : ℚ) / 1000000 * get_price [] "m" := by
  refine ⟨rfl, rfl, rfl, ?_⟩
  have hmoney : c1CexModel.money_saved = ((100 : ℕ) : ℚ) / 1000000 * get_price [] "m" := rfl
  have hsum : modelCompressedSavedTokens [c1CexEntry] "m" = 0 := rfl
  have hprice : get_price [] "m" = 3 := rfl
  rw [hmoney, hsum, hprice]
  norm_num

/-- Two compressed records for model "m", used to witness C1's theorem. -/
def c1WitEntries : List Entry :=
  [ { path := "/v1/messages", model := some "m", compression_used := true,
      original_tokens := 200, tokens_saved := 100, shadow_refs_created := 1,
      expand_calls_found := 0, timestamp := "" },
    { path := "/v1/messages", model := some "m", compression_used := true,
      original_tokens := 200, tokens_saved := 50, shadow_refs_created := 1,
      expand_calls_found := 0, timestamp := "" } ]

/-- The `TokenStats` the code computes on `c1WitEntries`. -/
def c1WitStats : TokenStats := (analyze_tokens [] c1WitEntries).getD TokenStats.start

/-- The per-model entry for key "m" in `c1WitStats`. -/
def c1WitModel : ModelStats := (c1WitStats.models.lookup "m").getD (ModelStats.start "m")

/-- Witness for C1: the amended theorem applied to a concrete two-record
input. -/
theorem analyze_tokens_model_money_witness :
    c1WitModel.money_saved =
      (modelSavedTokens c1WitEntries "m" : ℚ) / 1000000 * get_price [] "m" :=
  (analyze_tokens_model_money [] c1WitEntries c1WitStats "m" c1WitModel rfl rfl).1

/-! ## Sweep machinery for analyze_sizes -/

theorem sweep_foldl_fst (live : List (String × ℚ)) (cd : List SampleC) (current : Nat)
    (l : List Nat) (acc : List ThresholdResult × Nat) :
    (l.foldl (sweepStep live cd current) acc).1 =
      acc.1 ++ (l.filter (fun t => !decide (eligibleAt cd t = []))).map
        (mkThresholdResult live cd) := by
  induction l generalizing acc with
  | nil => simp
  | cons t ts ih =>
    rw [List.foldl_cons, ih]
    by_cases he : eligibleAt cd t = []
    · simp [sweepStep, he, List.filter_cons]
    · simp [sweepStep, he, List.filter_cons]

theorem sweepResults_fst (live : List (String × ℚ)) (cd : List SampleC) (current : Nat) :
    (sweepResults live cd current).1 =
      (THRESHOLD_CANDIDATES.filter (fun t => !decide (eligibleAt cd t = []))).map
        (mkThresholdResult live cd) := by
  unfold sweepResults
  rw [sweep_foldl_fst]
  simp

theorem sizeLoopStep_keeps (st : SizeStats) (rec : CompRec) :
    (sizeLoopStep st rec).thresholds = st.thresholds ∧
    (sizeLoopStep st rec).sweet_spot = st.sweet_spot ∧
    (sizeLoopStep st rec).compression_cost = st.compression_cost := by
  unfold sizeLoopStep
  by_cases h : rec.original_bytes = 0 <;> simp [h]

theorem sizeLoop_keeps (entries : List CompRec) (st : SizeStats) :
    (entries.foldl sizeLoopStep st).thresholds = st.thresholds ∧
    (entries.foldl sizeLoopStep st).sweet_spot = st.sweet_spot ∧
    (entries.foldl sizeLoopStep st).compression_cost = st.compression_cost := by
  induction entries generalizing st with
  | nil => exact ⟨rfl, rfl, rfl⟩
  | cons r rs ih =>
    rw [List.foldl_cons]
    obtain ⟨a, b, c⟩ := ih (sizeLoopStep st r)
    obtain ⟨a', b', c'⟩ := sizeLoopStep_keeps st r
    exact ⟨a.trans a', b.trans b', c.trans c'⟩

theorem analyze_sizes_thresholds (live : List (String × ℚ)) (entries : List CompRec)
    (st : SizeStats) (h : analyze_sizes live entries = some st)
    (hn : 10 ≤ (compressedData entries).length) :
    st.thresholds = (THRESHOLD_CANDIDATES.filter
        (fun t => !decide (eligibleAt (compressedData entries) t = []))).map
      (mkThresholdResult live (compressedData entries)) ∧
    st.sweet_spot = sweetOf st.thresholds := by
  simp only [analyze_sizes] at h
  by_cases h1 : entries = []
  · simp [h1] at h
  · rw [if_neg h1] at h
    by_cases h2 : (entries.foldl sizeLoopStep SizeStats.start).all_sizes = []
    · rw [if_pos h2] at h; exact absurd h (by simp)
    · rw [if_neg h2, if_pos hn] at h
      have h3 := Option.some.inj h
      subst h3
      exact ⟨sweepResults_fst live (compressedData entries) (currentThreshold entries), rfl⟩

theorem analyze_sizes_skip_small (live : List (String × ℚ)) (entries : List CompRec)
    (st : SizeStats) (h : analyze_sizes live entries = some st)
    (hn : (compressedData entries).length < 10) :
    st.thresholds = [] ∧ st.sweet_spot = 0 ∧ st.compression_cost = 0 := by
  simp only [analyze_sizes] at h
  by_cases h1 : entries = []
  · simp [h1] at h
  · rw [if_neg h1] at h
    by_cases h2 : (entries.foldl sizeLoopStep SizeStats.start).all_sizes = []
    · rw [if_pos h2] at h; exact absurd h (by simp)
    · rw [if_neg h2, if_neg (by omega)] at h
      have h3 := Option.some.inj h
      subst h3
      exact sizeLoop_keeps entries SizeStats.start

theorem mem_thresholds (live : List (String × ℚ)) (entries : List CompRec)
    (st : SizeStats) (r : ThresholdResult)
    (h : analyze_sizes live entries = some st) (hr : r ∈ st.thresholds) :
    ∃ t ∈ THRESHOLD_CANDIDATES, eligibleAt (compressedData entries) t ≠ [] ∧
      r = mkThresholdResult live (compressedData entries) t := by
  by_cases hn : 10 ≤ (compressedData entries).length
  · obtain ⟨hths, -⟩ := analyze_sizes_thresholds live entries st h hn
    rw [hths] at hr
    obtain ⟨t, ht, rfl⟩ := List.mem_map.mp hr
    have hmf := List.mem_filter.mp ht
    refine ⟨t, hmf.1, ?_, rfl⟩
    simpa using hmf.2
  · obtain ⟨hths, -, -⟩ := analyze_sizes_skip_small live entries st h (by omega)
    rw [hths] at hr
    cases hr

/-! ## C4: sweep skipped below 10 samples -/

/-- C4: whenever fewer than 10 compressed samples (records with
`status == "compressed"` and `original_bytes > 0`) exist, the threshold
analysis is skipped entirely: the returned thresholds list is empty,
`sweet_spot` is 0 and `compression_cost` is 0. -/
theorem analyze_sizes_skips_threshold_analysis (live : List (String × ℚ))
    (entries : List CompRec) (st : SizeStats)
    (h : analyze_sizes live entries = some st)
    (hn : (compressedData entries).length < 10) :
    st.thresholds = [] ∧ st.sweet_spot = 0 ∧ st.compression_cost = 0 :=
  analyze_sizes_skip_small live entries st h hn

/-! ## C3: wasted and saved at each recorded threshold -/

theorem compressedData_mem (entries : List CompRec) (c : SampleC)
    (hc : c ∈ compressedData entries) :
    0 < c.orig ∧ c.ratio = (c.comp : ℚ) / (c.orig : ℚ) := by
  unfold compressedData at hc
  obtain ⟨rec, hrec, hsome⟩ := List.mem_filterMap.mp hc
  by_cases h0 : rec.original_bytes = 0 ∨ rec.status ≠ "compressed"
  · rw [if_pos h0] at hsome; cases hsome
  · rw [if_neg h0] at hsome
    push_neg at h0
    obtain rfl := Option.some.inj hsome
    exact ⟨Nat.pos_of_ne_zero h0.1, rfl⟩

/-- C3: for every threshold result recorded by the sweep, `wasted` counts
exactly the compressed samples with `orig ≥ T` and ratio ≥ 0.9, and
`saved` sums `orig - comp` exactly over the compressed samples with
`orig ≥ T` and ratio < 0.9 (wasted samples contribute nothing). -/
theorem thresholds_wasted_saved (live : List (String × ℚ)) (entries : List CompRec)
    (st : SizeStats) (r : ThresholdResult)
    (h : analyze_sizes live entries = some st) (hr : r ∈ st.thresholds) :
    r.wasted = (compressedData entries).countP
      (fun c => decide (r.threshold ≤ c.orig) && decide ((9 : ℚ) / 10 ≤ c.ratio)) ∧
    r.saved = (((compressedData entries).filter
        (fun c => decide (r.threshold ≤ c.orig) && decide (c.ratio < (9 : ℚ) / 10))).map
      (fun c => (c.orig : ℤ) - (c.comp : ℤ))).sum := by
  obtain ⟨t, -, -, rfl⟩ := mem_thresholds live entries st r h hr
  constructor
  · show wastedAt (compressedData entries) t = _
    rw [wastedAt, eligibleAt, List.filter_filter, ← List.countP_eq_length_filter]
    apply List.countP_congr
    intro c _
    simp only [Bool.and_eq_true, decide_eq_true_eq]
    constructor
    · rintro ⟨h1, h2⟩; exact ⟨h2, h1⟩
    · rintro ⟨h1, h2⟩; exact ⟨h2, h1⟩
  · show savedAt (compressedData entries) t = _
    rw [savedAt, eligibleAt, List.filter_filter]
    congr 1
    congr 1
    apply List.filter_congr
    intro c _
    exact Bool.and_comm _ _

/-! ## C6: eligible counts antitone in the threshold -/

/-- C6: for any two recorded thresholds T1 < T2, the eligible count
(`calls`) recorded at T2 is at most the one recorded at T1. -/
theorem thresholds_calls_antitone (live : List (String × ℚ)) (entries : List CompRec)
    (st : SizeStats) (r1 r2 : ThresholdResult)
    (h : analyze_sizes live entries = some st)
    (h1 : r1 ∈ st.thresholds) (h2 : r2 ∈ st.thresholds)
    (hlt : r1.threshold < r2.threshold) :
    r2.calls ≤ r1.calls := by
  obtain ⟨t1, -, -, rfl⟩ := mem_thresholds live entries st r1 h h1
  obtain ⟨t2, -, -, rfl⟩ := mem_thresholds live entries st r2 h h2
  have hlt' : t1 < t2 := hlt
  show (eligibleAt (compressedData entries) t2).length ≤
    (eligibleAt (compressedData entries) t1).length
  rw [eligibleAt, eligibleAt, ← List.countP_eq_length_filter, ← List.countP_eq_length_filter]
  apply List.countP_mono_left
  intro c _ hdec
  simp only [decide_eq_true_eq] at hdec ⊢
  omega

/-! ## C10: invariants of the recorded threshold rows -/

theorem savedAt_nonneg (entries : List CompRec) (t : Nat) :
    0 ≤ savedAt (compressedData entries) t := by
  unfold savedAt
  apply List.sum_nonneg
  intro x hx
  obtain ⟨c, hc, rfl⟩ := List.mem_map.mp hx
  have hcf := List.mem_filter.mp hc
  have hcd : c ∈ compressedData entries := (List.mem_filter.mp hcf.1).1
  obtain ⟨horig, hratio⟩ := compressedData_mem entries c hcd
  have hr : c.ratio < (9 : ℚ) / 10 := by simpa using hcf.2
  rw [hratio] at hr
  have horigQ : (0 : ℚ) < (c.orig : ℚ) := by exact_mod_cast horig
  rw [div_lt_iff₀ horigQ] at hr
  have hlt : (c.comp : ℚ) < (c.orig : ℚ) := lt_of_lt_of_le hr (by linarith)
  have hle : c.comp ≤ c.orig := le_of_lt (by exact_mod_cast hlt)
  simp only [sub_nonneg]
  exact_mod_cast hle

theorem thresholds_sorted (live : List (String × ℚ)) (entries : List CompRec)
    (st : SizeStats) (h : analyze_sizes live entries = some st) :
    st.thresholds.Pairwise (fun a b => a.threshold < b.threshold) := by
  by_cases hn : 10 ≤ (compressedData entries).length
  · obtain ⟨hths, -⟩ := analyze_sizes_thresholds live entries st h hn
    rw [hths, List.pairwise_map]
    have hcand : THRESHOLD_CANDIDATES.Pairwise (· < ·) := by decide
    refine List.Pairwise.imp ?_ (hcand.filter _)
    intro a b hab
    exact hab
  · obtain ⟨hths, -, -⟩ := analyze_sizes_skip_small live entries st h (by omega)
    rw [hths]
    exact List.Pairwise.nil

/-- C10: every recorded `ThresholdResult` has `calls ≥ 1` (candidates with
an empty eligible set are skipped, never recorded with zero calls) and
`saved ≥ 0` (only strictly positive `orig - comp` contributions are
summed), and the recorded rows are strictly increasing in `threshold`. -/
theorem thresholds_invariants (live : List (String × ℚ)) (entries : List CompRec)
    (st : SizeStats) (h : analyze_sizes live entries = some st) :
    (∀ r ∈ st.thresholds, 1 ≤ r.calls ∧ 0 ≤ r.saved) ∧
    st.thresholds.Pairwise (fun a b => a.threshold < b.threshold) := by
  refine ⟨?_, thresholds_sorted live entries st h⟩
  intro r hr
  obtain ⟨t, -, hne, rfl⟩ := mem_thresholds live entries st r h hr
  constructor
  · show 1 ≤ (eligibleAt (compressedData entries) t).length
    have := List.length_pos.mpr hne
    omega
  · exact savedAt_nonneg entries t

/-! ## C2: the sweet spot -/

theorem find?_first_sorted {α : Type} (key : α → Nat) (p : α → Bool) (l : List α)
    (hs : l.Pairwise (fun a b => key a < key b)) (r : α) (hf : l.find? p = some r) :
    r ∈ l ∧ p r = true ∧ ∀ r' ∈ l, key r' < key r → p r' = false := by
  induction l with
  | nil => cases hf
  | cons x xs ih =>
    rw [List.find?_cons] at hf
    cases hpx : p x with
    | true =>
      rw [hpx] at hf
      obtain rfl : x = r := Option.some.inj hf
      refine ⟨List.mem_cons_self x xs, hpx, ?_⟩
      intro r' hr' hlt
      rcases List.mem_cons.mp hr' with rfl | hmem
      · omega
      · have := (List.pairwise_cons.mp hs).1 r' hmem
        omega
    | false =>
      rw [hpx] at hf
      obtain ⟨hmem, hpr, hall⟩ := ih (List.pairwise_cons.mp hs).2 hf
      refine ⟨List.mem_cons_of_mem x hmem, hpr, ?_⟩
      intro r' hr' hlt
      rcases List.mem_cons.mp hr' with rfl | hmem'
      · exact hpx
      · exact hall r' hmem' hlt

/-- C2: when `analyze_sizes` returns a result, either the sweet spot is a
recorded threshold with `wasted == 0` such that no strictly smaller
recorded threshold has `wasted == 0`, or no recorded threshold has
`wasted == 0` and `sweet_spot` stays at its unset value 0. -/
theorem sweet_spot_spec (live : List (String × ℚ)) (entries : List CompRec)
    (st : SizeStats) (h : analyze_sizes live entries = some st) :
    (∃ r ∈ st.thresholds, st.sweet_spot = r.threshold ∧ r.wasted = 0 ∧
      ∀ r' ∈ st.thresholds, r'.threshold < r.threshold → r'.wasted ≠ 0) ∨
    (st.sweet_spot = 0 ∧ ∀ r ∈ st.thresholds, r.wasted ≠ 0) := by
  have hsorted := thresholds_sorted live entries st h
  have hsweet : st.sweet_spot = sweetOf st.thresholds := by
    by_cases hn : 10 ≤ (compressedData entries).length
    · exact (analyze_sizes_thresholds live entries st h hn).2
    · obtain ⟨hths, hsw, -⟩ := analyze_sizes_skip_small live entries st h (by omega)
      rw [hths, hsw]
      rfl
  rw [hsweet]
  unfold sweetOf
  cases hf : st.thresholds.find? (fun r => decide (r.wasted = 0)) with
  | none =>
    right
    refine ⟨rfl, ?_⟩
    intro r hr
    have := List.find?_eq_none.mp hf r hr
    simpa using this
  | some r =>
    left
    have hres := find?_first_sorted (fun r => r.threshold)
      (fun r => decide (r.wasted = 0)) st.thresholds hsorted r hf
    exact ⟨r, hres.1, rfl, of_decide_eq_true hres.2.1,
      fun r' hr' hlt => of_decide_eq_false (hres.2.2 r' hr' hlt)⟩

/-! ## C7: daily statistics over active days only -/

/-- C7: when `analyze_daily` returns without error, the absent result
occurs exactly when no date has a strictly positive token total; and any
returned `DailyStats` has `active_days` equal to the length of
`daily_values`, contains only strictly positive daily totals (zero-total
dates are excluded from every statistic), and computes mean, median, min
and max over exactly the positive-total dates. -/
theorem analyze_daily_stats_spec (entries : List Entry) (res : Option DailyStats)
    (h : analyze_daily entries = Except.ok res) :
    (res = none ↔ ∀ daily, dailyTokensAux (msgsOf entries) [] = Except.ok daily →
      activeValuesOf daily = []) ∧
    ∀ st, res = some st →
      ∃ daily, dailyTokensAux (msgsOf entries) [] = Except.ok daily ∧
        activeValuesOf daily ≠ [] ∧
        st.active_days = st.daily_values.length ∧
        (∀ v ∈ st.daily_values, 0 < v) ∧
        st.daily_values.Perm (activeValuesOf daily) ∧
        st.daily_values.Sorted (· ≤ ·) ∧
        st.avg_tokens_per_day = meanQ (activeValuesOf daily) ∧
        st.median_tokens_per_day = medianQ (activeValuesOf daily) ∧
        st.min_tokens_per_day = listMinD (activeValuesOf daily) ∧
        st.max_tokens_per_day = listMaxD (activeValuesOf daily) := by
  simp only [analyze_daily] at h
  by_cases hm : msgsOf entries = []
  · rw [if_pos hm] at h
    obtain rfl : (none : Option DailyStats) = res := Except.ok.inj h
    refine ⟨⟨fun _ daily hd => ?_, fun _ => rfl⟩, fun st hst => by cases hst⟩
    rw [hm] at hd
    obtain rfl : ([] : List ((Nat × Nat × Nat) × Nat)) = daily := Except.ok.inj hd
    rfl
  · rw [if_neg hm] at h
    obtain ⟨e, hd⟩ | ⟨daily, hd⟩ :
        (∃ e, dailyTokensAux (msgsOf entries) [] = Except.error e) ∨
        (∃ daily, dailyTokensAux (msgsOf entries) [] = Except.ok daily) := by
      cases dailyTokensAux (msgsOf entries) [] with
      | error e => exact Or.inl ⟨e, rfl⟩
      | ok d => exact Or.inr ⟨d, rfl⟩
    · simp only [hd] at h
      exact Except.noConfusion h
    · simp only [hd] at h
      by_cases ha : activeValuesOf daily = []
      · rw [if_pos ha] at h
        obtain rfl : (none : Option DailyStats) = res := Except.ok.inj h
        refine ⟨⟨fun _ daily' hd' => ?_, fun _ => rfl⟩, fun st hst => by cases hst⟩
        rw [hd] at hd'
        obtain rfl := Except.ok.inj hd'
        exact ha
      · rw [if_neg ha] at h
        have h2 := Except.ok.inj h
        constructor
        · constructor
          · intro hnone
            rw [← h2] at hnone
            cases hnone
          · intro hall
            exact absurd (hall daily hd) ha
        · intro st hst
          rw [← h2] at hst
          obtain rfl := Option.some.inj hst
          refine ⟨daily, hd, ha, ?_, ?_, ?_, ?_, rfl, rfl, rfl, rfl⟩
          · exact (List.Perm.length_eq (List.perm_insertionSort _ _)).symm
          · intro v hv
            have hv' : v ∈ activeValuesOf daily :=
              (List.Perm.mem_iff (List.perm_insertionSort _ _)).mp hv
            have := (List.mem_filter.mp hv').2
            exact of_decide_eq_true this
          · exact List.perm_insertionSort _ _
          · exact List.sorted_insertionSort _ _

/-! ## Concrete witness data -/

/-- Twelve compressed compression-log records: six of 100 bytes (below
every candidate threshold) and six of 1000 bytes compressed to 990 bytes
(ratio 0.99, wasted at every threshold they are eligible for). -/
def wComp : List CompRec :=
  List.replicate 6 ⟨some "grep", "compressed", 100, some 50, 0⟩ ++
  List.replicate 6 ⟨some "grep", "compressed", 1000, some 990, 0⟩

/-- The `SizeStats` the code computes on `wComp`. -/
def wSizeStats : SizeStats := (analyze_sizes [] wComp).getD SizeStats.start

/-- The first recorded threshold row on `wComp` (threshold 256). -/
def wRow1 : ThresholdResult := wSizeStats.thresholds.headD ⟨0, 0, 0, 0, 0, 0⟩

/-- The second recorded threshold row on `wComp` (threshold 512). -/
def wRow2 : ThresholdResult := (wSizeStats.thresholds.drop 1).headD ⟨0, 0, 0, 0, 0, 0⟩

/-- Witness for C2: the sweet-spot characterisation applied to `wComp`. -/
theorem sweet_spot_spec_witness :
    (∃ r ∈ wSizeStats.thresholds, wSizeStats.sweet_spot = r.threshold ∧ r.wasted = 0 ∧
      ∀ r' ∈ wSizeStats.thresholds, r'.threshold < r.threshold → r'.wasted ≠ 0) ∨
    (wSizeStats.sweet_spot = 0 ∧ ∀ r ∈ wSizeStats.thresholds, r.wasted ≠ 0) :=
  sweet_spot_spec [] wComp wSizeStats rfl

/-- Witness for C3: the wasted/saved characterisation at the first
recorded row of `wComp`. -/
theorem thresholds_wasted_saved_witness :
    wRow1.wasted = (compressedData wComp).countP
      (fun c => decide (wRow1.threshold ≤ c.orig) && decide ((9 : ℚ) / 10 ≤ c.ratio)) ∧
    wRow1.saved = (((compressedData wComp).filter
        (fun c => decide (wRow1.threshold ≤ c.orig) && decide (c.ratio < (9 : ℚ) / 10))).map
      (fun c => (c.orig : ℤ) - (c.comp : ℤ))).sum :=
  thresholds_wasted_saved [] wComp wSizeStats wRow1 rfl (List.mem_of_mem_head? rfl)

/-- Two compression-log records, only one of them a compressed sample —
far fewer than the 10 the sweep requires. -/
def wCompSmall : List CompRec :=
  [⟨some "grep", "compressed", 1000, some 990, 0⟩,
   ⟨some "bash", "passthrough", 500, none, 0⟩]

/-- The `SizeStats` the code computes on `wCompSmall`. -/
def wSizeStatsSmall : SizeStats := (analyze_sizes [] wCompSmall).getD SizeStats.start

/-- Witness for C4: the skip theorem applied to `wCompSmall`. -/
theorem analyze_sizes_skips_witness :
    wSizeStatsSmall.thresholds = [] ∧ wSizeStatsSmall.sweet_spot = 0 ∧
    wSizeStatsSmall.compression_cost = 0 :=
  analyze_sizes_skips_threshold_analysis [] wCompSmall wSizeStatsSmall rfl (by decide)

/-- Witness for C6: the antitone theorem applied to the first two recorded
rows of `wComp`. -/
theorem thresholds_calls_antitone_witness : wRow2.calls ≤ wRow1.calls :=
  thresholds_calls_antitone [] wComp wSizeStats wRow1 wRow2 rfl
    (List.mem_of_mem_head? rfl)
    (List.drop_subset 1 wSizeStats.thresholds (List.mem_of_mem_head? rfl))
    (by decide)

/-- Witness for C10: the invariants theorem applied to `wComp`. -/
theorem thresholds_invariants_witness :
    wSizeStats.thresholds.Pairwise (fun a b => a.threshold < b.threshold) :=
  (thresholds_invariants [] wComp wSizeStats rfl).2

/-- Two `/v1/messages` records on different days, one of them with a zero
token total (its date must be excluded from the statistics). -/
def wDailyEntries : List Entry :=
  [ { path := "/v1/messages", model := some "m", compression_used := false,
      original_tokens := 100, tokens_saved := 0, shadow_refs_created := 0,
      expand_calls_found := 0, timestamp := "2024-01-05T10:30:00" },
    { path := "/v1/messages", model := some "m", compression_used := false,
      original_tokens := 0, tokens_saved := 0, shadow_refs_created := 0,
      expand_calls_found := 0, timestamp := "2024-01-06T09:00:00" } ]

/-- The result the code computes on `wDailyEntries`. -/
def wDailyRes : Option DailyStats :=
  match analyze_daily wDailyEntries with
  | Except.ok r => r
  | Except.error _ => none

/-- The `DailyStats` inside `wDailyRes`. -/
def wDailyStats : DailyStats := wDailyRes.getD DailyStats.start

/-- Witness for C7: the daily-statistics theorem applied to
`wDailyEntries`. -/
theorem analyze_daily_stats_witness :
    wDailyStats.active_days = wDailyStats.daily_values.length := by
  obtain ⟨-, h2⟩ := analyze_daily_stats_spec wDailyEntries wDailyRes rfl
  obtain ⟨daily, -, -, hlen, -⟩ := h2 wDailyStats rfl
  exact hlen
